import Mathlib

/-!
Verification of the particle-engine core of the flower repository
(`src/unnamed/part_001`, the gesture-driven `ParticleCanvas` component).

The embedding models:
* the particle-count configuration constants;
* the transient ring allocator (`allocateParticles`) and the firework
  spawn/age lifecycle (`spawnFirework`, the per-frame filter pass);
* the magic-mode debounce counter and mode flag;
* the smoothed blend-transition scalars and the bloom `handFactor`;
* the Lotus generator's sub-region particle accounting;
* the per-particle blend/physics integrator (target blending, damping,
  color chain, hover highlight) and the steady-pass skip of firework slots;
* the per-spark firework frame update (gravity/drag head integration and
  the one-frame-delayed trail shift);
* the pointer raycast against the fixed Z=0 plane.

Real-number quantities of the source (JS doubles) are modelled as
rationals; `Math.sin`/`Math.cos` and `Math.random()` are modelled as
oracle functions supplied through a `FrameEnv`, since only their results'
positions in the data flow matter for the claims below.  Flat interleaved
`Float32Array`s of stride 3 are modelled at particle granularity as
functions `ℕ → ℚ × ℚ × ℚ` (index `i` holds what the source stores at
`3*i .. 3*i+2`).
-/

set_option maxRecDepth 1000

namespace Flower

/-- Triples of rationals: one particle's x,y,z (or r,g,b) entry. -/
abbrev Q3 := ℚ × ℚ × ℚ

/-! ## Configuration constants (source lines 10-17, 165-166) -/

def FLOWER_COUNT : ℕ := 150000
def BG_COUNT : ℕ := 30000
def PARTICLE_COUNT : ℕ := FLOWER_COUNT + BG_COUNT
/-- Declared in the source but unused by the allocator, which wraps over
the whole `[FIREWORK_PARTICLES_START, PARTICLE_COUNT)` zone. -/
def FIREWORK_PARTICLES_COUNT : ℕ := 25000
def FIREWORK_PARTICLES_START : ℕ := FLOWER_COUNT
/-- Size of the ring the allocator cursor actually wraps over. -/
def fwRingSize : ℕ := PARTICLE_COUNT - FIREWORK_PARTICLES_START

def TRAIL_LEN : ℕ := 12
def SPARK_CNT : ℕ := 50
/-- `totalNeeded = SPARK_CNT * (1 + TRAIL_LEN)` from `spawnFirework`. -/
def totalNeeded : ℕ := SPARK_CNT * (1 + TRAIL_LEN)

/-! ## Transient ring allocator (source lines 146-160) -/

/-- One `ptr++; if (ptr >= PARTICLE_COUNT) ptr = FIREWORK_PARTICLES_START;`
step of `allocateParticles`. -/
def allocStep (ptr : ℕ) : ℕ :=
  if PARTICLE_COUNT ≤ ptr + 1 then FIREWORK_PARTICLES_START else ptr + 1

/-- `allocateParticles(count)` starting from cursor `ptr`: returns the list
of handed-out indices and the new cursor. -/
def allocateParticles : ℕ → ℕ → List ℕ × ℕ
  | 0, ptr => ([], ptr)
  | n + 1, ptr =>
    let rest := allocateParticles n (allocStep ptr)
    (ptr :: rest.1, rest.2)

/-- A cursor value the allocator can actually be at. -/
def ValidCursor (p : ℕ) : Prop :=
  FIREWORK_PARTICLES_START ≤ p ∧ p < PARTICLE_COUNT

lemma allocStep_closed (p : ℕ) (h : ValidCursor p) :
    allocStep p =
      FIREWORK_PARTICLES_START + (p - FIREWORK_PARTICLES_START + 1) % fwRingSize := by
  obtain ⟨h1, h2⟩ := h
  simp only [allocStep, PARTICLE_COUNT, FLOWER_COUNT, BG_COUNT,
    FIREWORK_PARTICLES_START, fwRingSize] at *
  split_ifs with hc <;> omega

lemma allocStep_valid (p : ℕ) (h : ValidCursor p) : ValidCursor (allocStep p) := by
  obtain ⟨h1, h2⟩ := h
  simp only [allocStep, ValidCursor, PARTICLE_COUNT, FLOWER_COUNT, BG_COUNT,
    FIREWORK_PARTICLES_START] at *
  split_ifs with hc <;> omega

lemma allocateParticles_closed (n : ℕ) :
    ∀ p, ValidCursor p →
      (allocateParticles n p).1 =
        (List.range n).map
          (fun i => FIREWORK_PARTICLES_START +
            (p - FIREWORK_PARTICLES_START + i) % fwRingSize) ∧
      (allocateParticles n p).2 =
        FIREWORK_PARTICLES_START + (p - FIREWORK_PARTICLES_START + n) % fwRingSize := by
  induction n with
  | zero =>
    intro p hp
    obtain ⟨h1, h2⟩ := hp
    simp only [allocateParticles, List.range_zero, List.map_nil, true_and]
    simp only [PARTICLE_COUNT, FLOWER_COUNT, BG_COUNT, FIREWORK_PARTICLES_START,
      fwRingSize] at *
    omega
  | succ n ih =>
    intro p hp
    have hstep := allocStep_closed p hp
    have hval := allocStep_valid p hp
    obtain ⟨e1, e2⟩ := ih (allocStep p) hval
    have hsub : allocStep p - FIREWORK_PARTICLES_START =
        (p - FIREWORK_PARTICLES_START + 1) % fwRingSize := by
      rw [hstep]; omega
    obtain ⟨h1, h2⟩ := hp
    have hring : fwRingSize = 30000 := by
      simp only [fwRingSize, PARTICLE_COUNT, FLOWER_COUNT, BG_COUNT,
        FIREWORK_PARTICLES_START]
    constructor
    · show p :: (allocateParticles n (allocStep p)).1 = _
      rw [e1, hsub, List.range_succ_eq_map, List.map_cons, List.map_map]
      simp only [List.cons.injEq]
      refine ⟨?_, ?_⟩
      · simp only [FIREWORK_PARTICLES_START, FLOWER_COUNT] at *
        simp only [PARTICLE_COUNT, FLOWER_COUNT, BG_COUNT] at h2
        rw [hring]
        omega
      · apply List.map_congr_left
        intro i _
        simp only [Function.comp_apply]
        rw [hring]
        omega
    · show (allocateParticles n (allocStep p)).2 = _
      rw [e2, hsub, hring]
      simp only [FIREWORK_PARTICLES_START, FLOWER_COUNT]
      omega

lemma allocateParticles_length (n p : ℕ) :
    (allocateParticles n p).1.length = n := by
  induction n generalizing p with
  | zero => rfl
  | succ n ih => simpa [allocateParticles] using ih (allocStep p)

lemma allocateParticles_valid (n : ℕ) (p : ℕ) (h : ValidCursor p) :
    ValidCursor (allocateParticles n p).2 := by
  induction n generalizing p with
  | zero => exact h
  | succ n ih => exact ih (allocStep p) (allocStep_valid p h)

lemma mem_allocateParticles {n p i : ℕ} (h : ValidCursor p) :
    i ∈ (allocateParticles n p).1 ↔
      ∃ r < n, i = FIREWORK_PARTICLES_START +
        (p - FIREWORK_PARTICLES_START + r) % fwRingSize := by
  rw [(allocateParticles_closed n p h).1]
  simp only [List.mem_map, List.mem_range]
  constructor
  · rintro ⟨r, hr, rfl⟩; exact ⟨r, hr, rfl⟩
  · rintro ⟨r, hr, rfl⟩; exact ⟨r, hr, rfl⟩

/-! ## Firework data model (source lines 77-88, 163-227, 929-991)

`Spark` and `FireworkR` mirror the source interfaces `Spark` and
`Firework`.  The source's `id: number` is `Date.now()`, which does not
distinguish two spawns in the same millisecond; the model instead records
the spawn ordinal, which is what the identity is for.  `color` (a random
base color) and the spark velocities are irrelevant to index ownership
and lifecycle, so they are not stored on the record; the per-frame
physics acting on the shared buffers is modelled separately by
`sparkUpdate` below. -/

structure SparkR where
  headIdx : ℕ
  trailIndices : List ℕ
deriving DecidableEq

structure FireworkR where
  spawnNum : ℕ
  age : ℕ
  sparks : List SparkR
deriving DecidableEq

/-- The indices a spark owns: its head and its trail. -/
def sparkIndices (sp : SparkR) : List ℕ := sp.headIdx :: sp.trailIndices

/-- All particle indices owned by a firework. -/
def fwIndices (fw : FireworkR) : List ℕ := fw.sparks.flatMap sparkIndices

/-- The spark-building loop of `spawnFirework`: take a head index, then up
to `TRAIL_LEN` trail indices, `SPARK_CNT` times (stopping early if the
index list runs out, as the source's `if (idxPtr >= indices.length) break`
and guarded pushes do). -/
def buildSparks : ℕ → List ℕ → List SparkR
  | 0, _ => []
  | _ + 1, [] => []
  | k + 1, h :: rest =>
    ⟨h, rest.take TRAIL_LEN⟩ :: buildSparks k (rest.drop TRAIL_LEN)

lemma buildSparks_flatMap (k : ℕ) :
    ∀ l : List ℕ, l.length = (1 + TRAIL_LEN) * k →
      (buildSparks k l).flatMap sparkIndices = l := by
  induction k with
  | zero =>
    intro l hl
    simp only [Nat.mul_zero, List.length_eq_zero] at hl
    subst hl
    rfl
  | succ k ih =>
    intro l hl
    match l with
    | [] => simp [TRAIL_LEN, Nat.mul_succ] at hl
    | h :: rest =>
      have hrest : rest.length = (1 + TRAIL_LEN) * k + TRAIL_LEN := by
        simp only [List.length_cons, Nat.mul_succ] at hl ⊢
        omega
      have hdrop : (rest.drop TRAIL_LEN).length = (1 + TRAIL_LEN) * k := by
        simp [List.length_drop, hrest]
      simp only [buildSparks, List.flatMap_cons, sparkIndices, ih _ hdrop,
        List.cons_append]
      rw [List.take_append_drop]

/-! ## Firework system state and per-frame lifecycle -/

/-- State of the firework subsystem: the ring cursor
(`fireworkCursorRef`), how many fireworks have ever been spawned (ghost
counter realising the source's `id`), and the live list
(`fireworksRef.current`). -/
structure FwState where
  cursor : ℕ
  spawnCount : ℕ
  fireworks : List FireworkR
deriving DecidableEq

def initFwState : FwState := ⟨FIREWORK_PARTICLES_START, 0, []⟩

/-- `spawnFirework`: allocate `totalNeeded` indices from the ring cursor,
group them into sparks, and push the new firework with `age = 0`. -/
def spawnStep (s : FwState) : FwState :=
  let alloc := allocateParticles totalNeeded s.cursor
  { cursor := alloc.2
    spawnCount := s.spawnCount + 1
    fireworks := s.fireworks ++ [⟨s.spawnCount, 0, buildSparks SPARK_CNT alloc.1⟩] }

/-- The per-frame firework pass of `animate` restricted to the lifecycle:
`fireworksRef.current = fireworksRef.current.filter(fw => { fw.age++; ...;
return fw.age < 90; })`, i.e. every firework's age is incremented and it
is kept exactly when the incremented age is `< 90`. -/
def frameStepFw (fws : List FireworkR) : List FireworkR :=
  (fws.map fun fw => { fw with age := fw.age + 1 }).filter fun fw => fw.age < 90

/-- Events driving the firework subsystem: a spawn trigger (pointer click
or pinch) or an animation frame. -/
inductive FwEvent
  | spawn
  | frame
deriving DecidableEq

def fwStep (s : FwState) : FwEvent → FwState
  | .spawn => spawnStep s
  | .frame => { s with fireworks := frameStepFw s.fireworks }

/-- Run the subsystem from startup over a sequence of events. -/
def runFw (evs : List FwEvent) : FwState := evs.foldl fwStep initFwState

/-- The index list the `j`-th spawn (0-based) ever receives. -/
def ownedIndices (j : ℕ) : List ℕ :=
  (allocateParticles totalNeeded
    (FIREWORK_PARTICLES_START + totalNeeded * j % fwRingSize)).1

/-- Cursor/ownership invariant of the firework subsystem. -/
def FwInv (s : FwState) : Prop :=
  s.cursor = FIREWORK_PARTICLES_START + totalNeeded * s.spawnCount % fwRingSize ∧
  ∀ fw ∈ s.fireworks, fw.spawnNum < s.spawnCount ∧
    fwIndices fw = ownedIndices fw.spawnNum

lemma cursor_valid_of_closed (x : ℕ) :
    ValidCursor (FIREWORK_PARTICLES_START + x % fwRingSize) := by
  constructor
  · exact Nat.le_add_right _ _
  · have h : x % fwRingSize < fwRingSize := Nat.mod_lt _ (by decide)
    simp only [PARTICLE_COUNT, FLOWER_COUNT, BG_COUNT, FIREWORK_PARTICLES_START,
      fwRingSize] at *
    omega

lemma fwInv_init : FwInv initFwState := by
  constructor
  · rfl
  · intro fw hfw
    simp [initFwState] at hfw

lemma fwInv_step (s : FwState) (e : FwEvent) (h : FwInv s) : FwInv (fwStep s e) := by
  obtain ⟨hcur, hfws⟩ := h
  cases e with
  | spawn =>
    have hval : ValidCursor s.cursor := by rw [hcur]; exact cursor_valid_of_closed _
    have hclosed := allocateParticles_closed totalNeeded s.cursor hval
    have hring : fwRingSize = 30000 := by decide
    have ht : totalNeeded = 650 := by decide
    constructor
    · simp only [fwStep, spawnStep]
      rw [hclosed.2, hcur, ht, hring]
      simp only [FIREWORK_PARTICLES_START, FLOWER_COUNT]
      omega
    · intro fw hfw
      simp only [fwStep, spawnStep, List.mem_append, List.mem_singleton] at hfw
      rcases hfw with hold | rfl
      · obtain ⟨hlt, hidx⟩ := hfws fw hold
        refine ⟨?_, hidx⟩
        simp only [fwStep, spawnStep]
        exact Nat.lt_succ_of_lt hlt
      · refine ⟨?_, ?_⟩
        · simp only [fwStep, spawnStep]
          exact Nat.lt_succ_self _
        · simp only [fwIndices]
          have hlen : (allocateParticles totalNeeded s.cursor).1.length =
              (1 + TRAIL_LEN) * SPARK_CNT := by
            rw [allocateParticles_length]; decide
          rw [buildSparks_flatMap SPARK_CNT _ hlen, ownedIndices, hcur]
  | frame =>
    refine ⟨hcur, ?_⟩
    intro fw hfw
    simp only [fwStep, frameStepFw, List.mem_filter, List.mem_map] at hfw
    obtain ⟨⟨fw0, hfw0, rfl⟩, _⟩ := hfw
    obtain ⟨hlt, hidx⟩ := hfws fw0 hfw0
    exact ⟨hlt, hidx⟩

lemma fwInv_run (evs : List FwEvent) : FwInv (runFw evs) := by
  suffices h : ∀ s, FwInv s → FwInv (evs.foldl fwStep s) from h _ fwInv_init
  induction evs with
  | nil => intro s hs; exact hs
  | cons e t ih => intro s hs; exact ih _ (fwInv_step s e hs)

lemma mem_ownedIndices {j i : ℕ} :
    i ∈ ownedIndices j ↔
      ∃ r < totalNeeded, i = FIREWORK_PARTICLES_START +
        (totalNeeded * j + r) % fwRingSize := by
  rw [ownedIndices, mem_allocateParticles (cursor_valid_of_closed _)]
  have hring : fwRingSize = 30000 := by decide
  constructor
  · rintro ⟨r, hr, rfl⟩
    refine ⟨r, hr, ?_⟩
    rw [hring] at *
    omega
  · rintro ⟨r, hr, rfl⟩
    refine ⟨r, hr, ?_⟩
    rw [hring] at *
    omega

/-- Core arithmetic fact behind ring-allocator safety: two spawns at most
45 spawn-steps apart receive disjoint index blocks (the 47th spawn after a
given one is the first that can lap back onto it, since
`46 * 650 = 29900 ≤ 30000 < 47 * 650`). -/
lemma ownedIndices_disjoint {j k : ℕ} (hne : j ≠ k)
    (h1 : j ≤ k + 45) (h2 : k ≤ j + 45) :
    ∀ i, i ∈ ownedIndices j → i ∉ ownedIndices k := by
  intro i hj hk
  rw [mem_ownedIndices] at hj hk
  obtain ⟨r, hr, rfl⟩ := hj
  obtain ⟨r', hr', heq⟩ := hk
  have ht : totalNeeded = 650 := by decide
  have hring : fwRingSize = 30000 := by decide
  simp only [ht, hring] at hr hr' heq
  have hm : 650 * j + r ≡ 650 * k + r' [MOD 30000] := by
    unfold Nat.ModEq
    omega
  obtain ⟨t, htt⟩ := hm.dvd
  push_cast at htt
  rcases lt_trichotomy t 0 with htn | rfl | htp
  · have hb : t ≤ -1 := by omega
    have hb2 : (30000 : ℤ) * t ≤ 30000 * (-1) := by
      exact mul_le_mul_of_nonneg_left hb (by norm_num)
    omega
  · omega
  · have hb : 1 ≤ t := by omega
    have hb2 : (30000 : ℤ) * 1 ≤ 30000 * t := by
      exact mul_le_mul_of_nonneg_left hb (by norm_num)
    omega

lemma runFw_append_single (l : List FwEvent) (e : FwEvent) :
    runFw (l ++ [e]) = fwStep (runFw l) e := by
  simp [runFw, List.foldl_append]

lemma runFw_replicate_spawnCount (n : ℕ) :
    (runFw (List.replicate n FwEvent.spawn)).spawnCount = n := by
  induction n with
  | zero => rfl
  | succ n ih =>
    rw [List.replicate_succ', runFw_append_single]
    simp [fwStep, spawnStep, ih]

lemma runFw_replicate_mem (n j : ℕ) (hj : j < n) :
    ∃ fw, fw ∈ (runFw (List.replicate n FwEvent.spawn)).fireworks ∧
      fw.spawnNum = j ∧ fw.age = 0 := by
  induction n with
  | zero => omega
  | succ n ih =>
    rw [List.replicate_succ', runFw_append_single]
    by_cases hcase : j < n
    · obtain ⟨fw, hmem, hnum, hage⟩ := ih hcase
      exact ⟨fw, by simp [fwStep, spawnStep, hmem], hnum, hage⟩
    · have hjn : j = n := by omega
      subst hjn
      refine ⟨⟨(runFw (List.replicate j FwEvent.spawn)).spawnCount, 0,
          buildSparks SPARK_CNT (allocateParticles totalNeeded
            (runFw (List.replicate j FwEvent.spawn)).cursor).1⟩, ?_, ?_, rfl⟩
      · simp [fwStep, spawnStep]
      · simp [runFw_replicate_spawnCount]

lemma foldl_frames (n : ℕ) :
    ∀ s : FwState, (List.replicate n FwEvent.frame).foldl fwStep s =
      ⟨s.cursor, s.spawnCount, frameStepFw^[n] s.fireworks⟩ := by
  induction n with
  | zero => intro s; rfl
  | succ n ih =>
    intro s
    rw [List.replicate_succ, List.foldl_cons, ih, Function.iterate_succ_apply]
    rfl

lemma frameStepFw_singleton (fw : FireworkR) :
    frameStepFw [fw] =
      if fw.age + 1 < 90 then [{ fw with age := fw.age + 1 }] else [] := by
  by_cases h : fw.age + 1 < 90 <;> simp [frameStepFw, List.filter, h]

lemma frameIter_nil (n : ℕ) : frameStepFw^[n] ([] : List FireworkR) = [] := by
  induction n with
  | zero => rfl
  | succ n ih => rw [Function.iterate_succ_apply]; exact ih

lemma frameIter_survive (n : ℕ) :
    ∀ fw : FireworkR, fw.age + n < 90 →
      frameStepFw^[n] [fw] = [{ fw with age := fw.age + n }] := by
  induction n with
  | zero => intro fw _; simp
  | succ n ih =>
    intro fw h
    rw [Function.iterate_succ_apply, frameStepFw_singleton, if_pos (by omega)]
    rw [ih { fw with age := fw.age + 1 } (by simp; omega)]
    simp [Nat.add_assoc, Nat.add_comm 1 n]

lemma frameIter_dead (n : ℕ) :
    ∀ fw : FireworkR, 1 ≤ n → 90 ≤ fw.age + n →
      frameStepFw^[n] [fw] = [] := by
  induction n with
  | zero => omega
  | succ n ih =>
    intro fw _ h
    rw [Function.iterate_succ_apply, frameStepFw_singleton]
    by_cases halive : fw.age + 1 < 90
    · rw [if_pos halive]
      have hn : 1 ≤ n := by omega
      exact ih { fw with age := fw.age + 1 } hn (by simp; omega)
    · rw [if_neg halive]
      exact frameIter_nil n

/-! ## Claims C3, C4, C5 -/

/-- Claim C3 (counterexample): it is not true that any two simultaneously
alive fireworks own disjoint index sets, for every sequence of spawn
triggers.  Forty-seven spawns in a row (possible: `handleClick` has no
rate limit, and the fireworks all remain alive with age 0) wrap the
30000-slot ring, so the 1st and the 47th live firework both own particle
index 150000. -/
theorem fireworks_can_share_indices :
    ¬ ∀ (evs : List FwEvent) (f g : FireworkR),
        f ∈ (runFw evs).fireworks → g ∈ (runFw evs).fireworks →
        f.spawnNum ≠ g.spawnNum →
        ∀ i, i ∈ fwIndices f → i ∉ fwIndices g := by
  intro hclaim
  obtain ⟨f, hfmem, hfnum, _⟩ := runFw_replicate_mem 47 0 (by omega)
  obtain ⟨g, hgmem, hgnum, _⟩ := runFw_replicate_mem 47 46 (by omega)
  obtain ⟨_, hfws⟩ := fwInv_run (List.replicate 47 FwEvent.spawn)
  have hfi : fwIndices f = ownedIndices 0 := hfnum ▸ (hfws f hfmem).2
  have hgi : fwIndices g = ownedIndices 46 := hgnum ▸ (hfws g hgmem).2
  have hmemf : (150000 : ℕ) ∈ fwIndices f := by
    rw [hfi, mem_ownedIndices]
    exact ⟨0, by decide, by decide⟩
  have hmemg : (150000 : ℕ) ∈ fwIndices g := by
    rw [hgi, mem_ownedIndices]
    exact ⟨100, by decide, by decide⟩
  exact hclaim _ f g hfmem hgmem (by omega) 150000 hmemf hmemg

/-- Claim C3 (amended): two simultaneously alive fireworks own disjoint
index sets provided they are at most 45 spawns apart in spawn order
(fewer than 47 spawns span the two allocations, so the ring cursor cannot
have lapped from one onto the other). -/
theorem fireworks_disjoint_within_window (evs : List FwEvent) (f g : FireworkR)
    (hf : f ∈ (runFw evs).fireworks) (hg : g ∈ (runFw evs).fireworks)
    (hne : f.spawnNum ≠ g.spawnNum)
    (h1 : f.spawnNum ≤ g.spawnNum + 45) (h2 : g.spawnNum ≤ f.spawnNum + 45) :
    ∀ i, i ∈ fwIndices f → i ∉ fwIndices g := by
  obtain ⟨_, hfws⟩ := fwInv_run evs
  rw [(hfws f hf).2, (hfws g hg).2]
  exact ownedIndices_disjoint hne h1 h2

/-- Concrete first firework of a two-spawn run (for the C3 witness). -/
def twoSpawnFwA : FireworkR :=
  ⟨0, 0, buildSparks SPARK_CNT (allocateParticles totalNeeded initFwState.cursor).1⟩

/-- Concrete second firework of a two-spawn run (for the C3 witness). -/
def twoSpawnFwB : FireworkR :=
  ⟨1, 0, buildSparks SPARK_CNT
    (allocateParticles totalNeeded (spawnStep initFwState).cursor).1⟩

lemma twoSpawn_memA :
    twoSpawnFwA ∈ (runFw [FwEvent.spawn, FwEvent.spawn]).fireworks := by
  show twoSpawnFwA ∈ (fwStep (fwStep initFwState .spawn) .spawn).fireworks
  simp [fwStep, spawnStep, initFwState, twoSpawnFwA]

lemma twoSpawn_memB :
    twoSpawnFwB ∈ (runFw [FwEvent.spawn, FwEvent.spawn]).fireworks := by
  show twoSpawnFwB ∈ (fwStep (fwStep initFwState .spawn) .spawn).fireworks
  simp [fwStep, spawnStep, initFwState, twoSpawnFwB]

theorem fireworks_disjoint_within_window_witness :
    (150000 : ℕ) ∉ fwIndices twoSpawnFwB := by
  have hmemA : (150000 : ℕ) ∈ fwIndices twoSpawnFwA := by
    have h := (fwInv_run [FwEvent.spawn, FwEvent.spawn]).2 twoSpawnFwA twoSpawn_memA
    rw [h.2, mem_ownedIndices]
    exact ⟨0, by decide, by decide⟩
  exact fireworks_disjoint_within_window [FwEvent.spawn, FwEvent.spawn]
    twoSpawnFwA twoSpawnFwB twoSpawn_memA twoSpawn_memB
    (by decide) (by decide) (by decide) 150000 hmemA

/-- Claim C4: `spawnFirework` allocates exactly
`SPARK_CNT * (1 + TRAIL_LEN) = 650` indices from the ring allocator, all
of them inside the reserved sub-range
`[FIREWORK_PARTICLES_START, PARTICLE_COUNT)` and hence never inside the
steady flower range `[0, FLOWER_COUNT)`; the cursor advances by 650
modulo the ring size (wrapping back to the start of the reserved
range). -/
theorem spawn_allocates_reserved_range (s : FwState) (h : ValidCursor s.cursor) :
    (spawnStep s).fireworks = s.fireworks ++
      [⟨s.spawnCount, 0, buildSparks SPARK_CNT (allocateParticles totalNeeded s.cursor).1⟩] ∧
    (allocateParticles totalNeeded s.cursor).1.length = SPARK_CNT * (1 + TRAIL_LEN) ∧
    (∀ i ∈ (allocateParticles totalNeeded s.cursor).1,
        FIREWORK_PARTICLES_START ≤ i ∧ i < PARTICLE_COUNT ∧ ¬ i < FLOWER_COUNT) ∧
    (spawnStep s).cursor = FIREWORK_PARTICLES_START +
      (s.cursor - FIREWORK_PARTICLES_START + SPARK_CNT * (1 + TRAIL_LEN)) % fwRingSize := by
  have hring : fwRingSize = 30000 := by decide
  have hPC : PARTICLE_COUNT = 180000 := by decide
  have hF : FIREWORK_PARTICLES_START = 150000 := by decide
  have hFC : FLOWER_COUNT = 150000 := by decide
  refine ⟨rfl, ?_, ?_, ?_⟩
  · rw [allocateParticles_length]
    rfl
  · intro i hi
    rw [mem_allocateParticles h] at hi
    obtain ⟨r, hr, rfl⟩ := hi
    have hlt : (s.cursor - FIREWORK_PARTICLES_START + r) % fwRingSize < fwRingSize :=
      Nat.mod_lt _ (by rw [hring]; omega)
    rw [hring] at hlt
    rw [hF] at hlt ⊢
    rw [hPC, hFC, hring]
    omega
  · simp only [spawnStep]
    rw [(allocateParticles_closed totalNeeded s.cursor h).2]
    rfl

/-- Witness for C4 at the startup state (cursor at the start of the
reserved range). -/
theorem spawn_allocates_reserved_range_witness :
    (spawnStep initFwState).cursor = FIREWORK_PARTICLES_START +
      (initFwState.cursor - FIREWORK_PARTICLES_START +
        SPARK_CNT * (1 + TRAIL_LEN)) % fwRingSize :=
  (spawn_allocates_reserved_range initFwState ⟨by decide, by decide⟩).2.2.2

/-- Claim C5: every live firework's age increases by exactly 1 per frame
update and it stays live exactly while the incremented age is below the
90-frame budget; a firework spawned into an empty system is gone after
exactly 90 frames (still there after 89); and from any valid cursor a
full ring lap of allocation hands out every reserved index, so the indices
of a dead firework are all eligible for future spawns. -/
theorem firework_lifecycle :
    (∀ (fws : List FireworkR) (fw' : FireworkR),
        fw' ∈ frameStepFw fws ↔
          ∃ fw, fw ∈ fws ∧ fw' = { fw with age := fw.age + 1 } ∧ fw.age + 1 < 90) ∧
    (runFw (FwEvent.spawn :: List.replicate 90 FwEvent.frame)).fireworks = [] ∧
    (runFw (FwEvent.spawn :: List.replicate 89 FwEvent.frame)).fireworks ≠ [] ∧
    (∀ c i, ValidCursor c → FIREWORK_PARTICLES_START ≤ i → i < PARTICLE_COUNT →
        i ∈ (allocateParticles fwRingSize c).1) := by
  refine ⟨?_, ?_, ?_, ?_⟩
  · intro fws fw'
    simp only [frameStepFw, List.mem_filter, List.mem_map]
    constructor
    · rintro ⟨⟨fw, hfw, rfl⟩, hage⟩
      refine ⟨fw, hfw, rfl, by simpa using hage⟩
    · rintro ⟨fw, hfw, rfl, hage⟩
      exact ⟨⟨fw, hfw, rfl⟩, by simpa using hage⟩
  · rw [runFw, List.foldl_cons, foldl_frames]
    have hfw : (fwStep initFwState .spawn).fireworks =
        [⟨0, 0, buildSparks SPARK_CNT
          (allocateParticles totalNeeded initFwState.cursor).1⟩] := by
      simp [fwStep, spawnStep, initFwState]
    simp only [hfw]
    exact frameIter_dead 90 _ (by omega) (by simp)
  · rw [runFw, List.foldl_cons, foldl_frames]
    have hfw : (fwStep initFwState .spawn).fireworks =
        [⟨0, 0, buildSparks SPARK_CNT
          (allocateParticles totalNeeded initFwState.cursor).1⟩] := by
      simp [fwStep, spawnStep, initFwState]
    simp only [hfw]
    rw [frameIter_survive 89 _ (by simp)]
    simp
  · intro c i hc h1 h2
    rw [mem_allocateParticles hc]
    have hring : fwRingSize = 30000 := by decide
    obtain ⟨hc1, hc2⟩ := hc
    simp only [PARTICLE_COUNT, FLOWER_COUNT, BG_COUNT, FIREWORK_PARTICLES_START,
      hring] at *
    by_cases hcmp : c - 150000 ≤ i - 150000
    · exact ⟨i - 150000 - (c - 150000), by omega, by omega⟩
    · exact ⟨30000 + (i - 150000) - (c - 150000), by omega, by omega⟩

/-- Witness for C5's full-lap coverage conjunct: a lap from the start of
the reserved range reaches index 160000. -/
theorem firework_lifecycle_witness :
    (160000 : ℕ) ∈ (allocateParticles fwRingSize FIREWORK_PARTICLES_START).1 :=
  firework_lifecycle.2.2.2 FIREWORK_PARTICLES_START 160000
    ⟨by decide, by decide⟩ (by decide) (by decide)

/-! ## Magic-mode debounce state machine (source lines 729-740)

Each processed video frame: if the magic gesture is detected the counter
is incremented capped at 10, else decremented floored at 0 (ℕ
subtraction); then the mode flag becomes true when the counter exceeds 6,
false when it drops below 2, and is otherwise unchanged. -/

def debounceStep (c : ℕ) (gesture : Bool) : ℕ :=
  if gesture then min (c + 1) 10 else c - 1

def modeUpdate (c : ℕ) (m : Bool) : Bool :=
  if 6 < c then true else if c < 2 then false else m

/-- Counter/mode trace over an input stream of per-frame gesture
detections, from the startup state (counter 0, mode off). -/
def magicModeTrace (g : ℕ → Bool) : ℕ → ℕ × Bool
  | 0 => (0, false)
  | n + 1 =>
    let s := magicModeTrace g n
    let c := debounceStep s.1 (g n)
    (c, modeUpdate c s.2)

/-- Step `n + 1` flips the mode flag. -/
def MagicTransition (g : ℕ → Bool) (n : ℕ) : Prop :=
  (magicModeTrace g (n + 1)).2 ≠ (magicModeTrace g n).2

instance (g : ℕ → Bool) (n : ℕ) : Decidable (MagicTransition g n) := by
  unfold MagicTransition
  infer_instance

lemma debounce_mode_inv (g : ℕ → Bool) (n : ℕ) :
    ((magicModeTrace g n).2 = true → 2 ≤ (magicModeTrace g n).1) ∧
    ((magicModeTrace g n).2 = false → (magicModeTrace g n).1 ≤ 6) := by
  induction n with
  | zero => simp [magicModeTrace]
  | succ n ih =>
    simp only [magicModeTrace, modeUpdate]
    split_ifs with h1 h2 <;> constructor <;> intro hm <;> first | omega | simp_all

lemma magicTransition_counter {g : ℕ → Bool} {n : ℕ} (h : MagicTransition g n) :
    ((magicModeTrace g (n + 1)).2 = true ∧ 7 ≤ (magicModeTrace g (n + 1)).1) ∨
    ((magicModeTrace g (n + 1)).2 = false ∧ (magicModeTrace g (n + 1)).1 ≤ 1) := by
  unfold MagicTransition at h
  conv at h => rw [magicModeTrace]
  conv => rw [magicModeTrace]
  simp only [modeUpdate] at h ⊢
  split_ifs at h ⊢ with h1 h2 <;> simp_all <;> omega

lemma debounce_le_ten (g : ℕ → Bool) (n : ℕ) : (magicModeTrace g n).1 ≤ 10 := by
  induction n with
  | zero => simp [magicModeTrace]
  | succ n ih =>
    simp only [magicModeTrace, debounceStep]
    split_ifs with h
    · exact min_le_right _ _
    · omega

lemma debounce_lipschitz (g : ℕ → Bool) (n : ℕ) :
    (magicModeTrace g (n + 1)).1 ≤ (magicModeTrace g n).1 + 1 ∧
    (magicModeTrace g n).1 ≤ (magicModeTrace g (n + 1)).1 + 1 := by
  have hten := debounce_le_ten g n
  simp only [magicModeTrace, debounceStep]
  split_ifs with h
  · rcases Nat.le_total ((magicModeTrace g n).1 + 1) 10 with hle | hle
    · rw [min_eq_left hle]; omega
    · rw [min_eq_right hle]; omega
  · omega

lemma debounce_gap (g : ℕ → Bool) (k : ℕ) :
    ∀ n, (magicModeTrace g (n + k)).1 ≤ (magicModeTrace g n).1 + k ∧
      (magicModeTrace g n).1 ≤ (magicModeTrace g (n + k)).1 + k := by
  induction k with
  | zero => intro n; simp
  | succ k ih =>
    intro n
    have h1 := ih (n + 1)
    have h2 := debounce_lipschitz g n
    have he : n + 1 + k = n + (k + 1) := by omega
    rw [he] at h1
    omega

/-- Claim C7: under the debounce update, consecutive magic-mode
enter/exit transitions are separated by at least 4 frames, for every
input stream, including flapping the gesture every frame.  (A transition
leaves the counter at ≥ 7 or ≤ 1, the counter moves by at most 1 per
frame, and the next transition needs the opposite extreme, so the actual
separation is at least 6 ≥ 4.) -/
theorem magic_transitions_separated (g : ℕ → Bool) (a b : ℕ)
    (hab : a < b)
    (ha : MagicTransition g a) (hb : MagicTransition g b)
    (hbetween : ∀ k, k < b → a < k → ¬ MagicTransition g k) :
    4 ≤ b - a := by
  have hconst : ∀ k, a + 1 ≤ k → k ≤ b → (magicModeTrace g k).2 =
      (magicModeTrace g (a + 1)).2 := by
    intro k hk1 hk2
    induction k with
    | zero => omega
    | succ k ihk =>
      by_cases hk : a + 1 ≤ k
      · have heq : (magicModeTrace g (k + 1)).2 = (magicModeTrace g k).2 := by
          have := hbetween k (by omega) (by omega)
          unfold MagicTransition at this
          simpa using this
        rw [heq]
        exact ihk hk (by omega)
      · have : k = a := by omega
        subst this
        rfl
  have ha2 := magicTransition_counter ha
  have hb2 := magicTransition_counter hb
  have hgap := debounce_gap g (b + 1 - (a + 1)) (a + 1)
  have hrw : a + 1 + (b + 1 - (a + 1)) = b + 1 := by omega
  rw [hrw] at hgap
  have hmode : (magicModeTrace g b).2 = (magicModeTrace g (a + 1)).2 :=
    hconst b (by omega) (by omega)
  rcases ha2 with ⟨hma, hca⟩ | ⟨hma, hca⟩ <;> rcases hb2 with ⟨hmb, hcb⟩ | ⟨hmb, hcb⟩
  · exfalso
    unfold MagicTransition at hb
    rw [hmb, hmode, hma] at hb
    exact hb rfl
  · omega
  · omega
  · exfalso
    unfold MagicTransition at hb
    rw [hmb, hmode, hma] at hb
    exact hb rfl

/-- Input stream for the C7 witness: gesture held for the first 7 frames,
then released. -/
def gestureBurst : ℕ → Bool := fun n => n < 7

theorem magic_transitions_separated_witness : 4 ≤ 12 - 6 :=
  magic_transitions_separated gestureBurst 6 12 (by omega)
    (by decide) (by decide)
    (by decide)

/-! ## Smoothed blend transitions and bloom factor
(source lines 743-765, 877-883)

Each animation frame:
`galaxyTransition += (target - galaxyTransition) * 0.08` with target 1
when galaxy mode is on, else 0, and
`magicTransition += (target - magicTransition) * 0.1` likewise.

`handFactor` updates only on processed video frames: with a right hand
present and magic mode off, the pinch distance maps through
`clamp((dist - 0.03) * 8, 0, 2.5)` and
`handFactor += (target - handFactor) * 0.2`; with no right hand it decays
by `handFactor += (0 - handFactor) * 0.05`; with a right hand present in
magic mode it is left unchanged. -/

def galaxyTransitionStep (gT : ℚ) (isGalaxy : Bool) : ℚ :=
  gT + ((if isGalaxy then 1 else 0) - gT) * (8 / 100)

def magicTransitionStep (mT : ℚ) (isMagic : Bool) : ℚ :=
  mT + ((if isMagic then 1 else 0) - mT) * (1 / 10)

/-- `target = Math.max(0, Math.min(2.5, (dist - 0.03) * 8.0))`. -/
def handTarget (dist : ℚ) : ℚ :=
  max 0 (min (5 / 2) ((dist - 3 / 100) * 8))

/-- Per-video-frame input to the `handFactor` update. -/
inductive HandInput
  | present (dist : ℚ)
  | absent
  | magicHeld

def handFactorStep (h : ℚ) : HandInput → ℚ
  | .present dist => h + (handTarget dist - h) * (2 / 10)
  | .absent => h + (0 - h) * (5 / 100)
  | .magicHeld => h

def galaxyTransitionTrace (inp : ℕ → Bool) : ℕ → ℚ
  | 0 => 0
  | n + 1 => galaxyTransitionStep (galaxyTransitionTrace inp n) (inp n)

def magicTransitionTrace (inp : ℕ → Bool) : ℕ → ℚ
  | 0 => 0
  | n + 1 => magicTransitionStep (magicTransitionTrace inp n) (inp n)

def handFactorTrace (inp : ℕ → HandInput) : ℕ → ℚ
  | 0 => 0
  | n + 1 => handFactorStep (handFactorTrace inp n) (inp n)

/-- Claim C9 (counterexample): the bloom factor does not stay within
`[0, ~1.5]`: holding the hand open (pinch distance 1, so the clamped
target is 2.5) for nine processed frames drives `handFactor` above 2. -/
theorem handFactor_exceeds_documented_bound :
    2 < handFactorTrace (fun _ => .present 1) 9 := by
  have hT : handTarget 1 = 5 / 2 := by
    rw [handTarget, min_eq_left (by norm_num), max_eq_right (by norm_num)]
  norm_num [handFactorTrace, handFactorStep, hT]

/-- Claim C9 (amended): for arbitrary per-frame inputs the smoothed
galaxy and magic transition scalars always remain within `[0, 1]`, and
the smoothed bloom `handFactor` always remains within `[0, 2.5]` (the
code clamps the instantaneous target to 2.5, not 1.5). -/
theorem transition_scalars_bounded (gIn mIn : ℕ → Bool) (hIn : ℕ → HandInput)
    (n : ℕ) :
    0 ≤ galaxyTransitionTrace gIn n ∧ galaxyTransitionTrace gIn n ≤ 1 ∧
    0 ≤ magicTransitionTrace mIn n ∧ magicTransitionTrace mIn n ≤ 1 ∧
    0 ≤ handFactorTrace hIn n ∧ handFactorTrace hIn n ≤ 5 / 2 := by
  induction n with
  | zero =>
    norm_num [galaxyTransitionTrace, magicTransitionTrace, handFactorTrace]
  | succ n ih =>
    obtain ⟨hg0, hg1, hm0, hm1, hh0, hh1⟩ := ih
    refine ⟨?_, ?_, ?_, ?_, ?_, ?_⟩
    · simp only [galaxyTransitionTrace, galaxyTransitionStep]
      split_ifs <;> nlinarith
    · simp only [galaxyTransitionTrace, galaxyTransitionStep]
      split_ifs <;> nlinarith
    · simp only [magicTransitionTrace, magicTransitionStep]
      split_ifs <;> nlinarith
    · simp only [magicTransitionTrace, magicTransitionStep]
      split_ifs <;> nlinarith
    · simp only [handFactorTrace]
      cases hc : hIn n with
      | present dist =>
        simp only [handFactorStep]
        have ht0 : 0 ≤ handTarget dist := le_max_left 0 _
        nlinarith
      | absent => simp only [handFactorStep]; nlinarith
      | magicHeld => simpa [handFactorStep] using hh0
    · simp only [handFactorTrace]
      cases hc : hIn n with
      | present dist =>
        simp only [handFactorStep]
        have ht1 : handTarget dist ≤ 5 / 2 := by
          apply max_le
          · norm_num
          · exact le_trans (min_le_left _ _) (le_refl _)
        nlinarith
      | absent => simp only [handFactorStep]; nlinarith
      | magicHeld => simpa [handFactorStep] using hh1

/-! ## Lotus generator particle accounting (source lines 292-424) -/

/-- The pod loop writes exactly 10000 particles. -/
def podCount : ℕ := 10000

/-- Petal counts of the five layers of `generateLotus`. -/
def lotusLayerCounts : List ℕ := [6, 9, 12, 16, 20]

def totalPetalParticles : ℕ := FLOWER_COUNT - podCount

/-- `Math.floor(totalPetalParticles / layers.length)`. -/
def particlesPerLayer : ℕ := totalPetalParticles / lotusLayerCounts.length

/-- Final value of `pIndex` after the pod and petal loops of
`generateLotus`: the pod writes `podCount` particles, then each layer
writes `count` petals of `Math.floor(particlesPerLayer / count)`
particles each, with the inner loop stopping at `FLOWER_COUNT` (the
`if (pIndex >= FLOWER_COUNT) break` guard). -/
def lotusAssigned : ℕ :=
  lotusLayerCounts.foldl
    (fun p count =>
      (List.range count).foldl
        (fun q _ => min (q + particlesPerLayer / count) FLOWER_COUNT) p)
    podCount

/-- Region a Lotus particle index is generated in: the pod loop fills
`[0, podCount)`, the petal loops fill `[podCount, lotusAssigned)`, and the
background loop fills `[lotusAssigned, PARTICLE_COUNT)`. -/
inductive LotusRegion
  | pod
  | petal
  | background
deriving DecidableEq

def lotusRegionOf (i : ℕ) : LotusRegion :=
  if i < podCount then .pod
  else if i < lotusAssigned then .petal
  else .background

set_option maxRecDepth 40000 in
/-- Claim C8 (counterexample): the Lotus sub-region populations do not
sum to `FLOWER_COUNT`; the floored integer splits leave a shortfall
(`lotusAssigned = 149991 = FLOWER_COUNT - 9`), and the flower index
149995 is filled by the background loop instead of a flower region. -/
theorem lotus_counts_fall_short :
    lotusAssigned ≠ FLOWER_COUNT ∧
    lotusRegionOf 149995 = .background ∧ 149995 < FLOWER_COUNT := by
  refine ⟨?_, ?_, ?_⟩ <;> decide

set_option maxRecDepth 40000 in
/-- Claim C8 (amended): the pod plus petal assignments cover exactly
`lotusAssigned = FLOWER_COUNT - 9 = 149991` particles — the remainder of
the integer splits is not grown into the last region — so the last 9
indices of the flower range `[0, FLOWER_COUNT)` are left to the
background region, and every index below 149991 receives a pod or petal
position. -/
theorem lotus_counts_sum (i : ℕ) (hlo : FLOWER_COUNT - 9 ≤ i)
    (hhi : i < FLOWER_COUNT) :
    lotusAssigned = FLOWER_COUNT - 9 ∧
    lotusRegionOf i = .background := by
  have ha : lotusAssigned = 149991 := by decide
  have hf : FLOWER_COUNT = 150000 := by decide
  have hp : podCount = 10000 := by decide
  rw [hf] at hlo hhi
  refine ⟨by rw [ha, hf], ?_⟩
  rw [lotusRegionOf, hp, ha, if_neg (by omega), if_neg (by omega)]

theorem lotus_counts_sum_witness :
    lotusAssigned = FLOWER_COUNT - 9 ∧ lotusRegionOf 149995 = .background :=
  lotus_counts_sum 149995 (by decide) (by decide)

/-! ## Per-particle blend/physics integrator (source lines 993-1142)

`Math.sin`/`Math.cos` are modelled by the oracle functions `sinQ`/`cosQ`
of a `FrameEnv`, and the successive `Math.random()` draws of particle `i`
by `rand i 0`, `rand i 1`, ….  The source compares the magic-ring radius
`dist = Math.sqrt(x*x + y*y)` against the thresholds 1.9, 1.3, 1.6, 1.0;
the model compares `dist²` against the squared thresholds, which is
equivalent since both sides are nonnegative. -/

structure FrameEnv where
  sinQ : ℚ → ℚ
  cosQ : ℚ → ℚ
  rand : ℕ → ℕ → ℚ

/-- `a + (b - a) * t`, the source's lerp idiom. -/
def lerpQ (a b t : ℚ) : ℚ := a + (b - a) * t

/-- The magic-shield spin transform (source lines 1040-1060, applied when
`mT > 0.01`): the outer ring, rune ring and core bands each rotate by
their own time-dependent angle; the hexagram band `[1.6, 1.9]` does not
spin. -/
def magicSpun (env : FrameEnv) (timeNow : ℚ) (m : Q3) : Q3 :=
  let spin1 := timeNow * (5 / 10000)
  let spin2 := -(timeNow * (1 / 1000))
  let spin3 := timeNow * (2 / 1000)
  let d2 := m.1 * m.1 + m.2.1 * m.2.1
  if (19 / 10) * (19 / 10) < d2 then
    (m.1 * env.cosQ spin1 - m.2.1 * env.sinQ spin1,
     m.1 * env.sinQ spin1 + m.2.1 * env.cosQ spin1, m.2.2)
  else if (13 / 10) * (13 / 10) < d2 ∧ d2 < (16 / 10) * (16 / 10) then
    (m.1 * env.cosQ spin2 - m.2.1 * env.sinQ spin2,
     m.1 * env.sinQ spin2 + m.2.1 * env.cosQ spin2, m.2.2)
  else if d2 < 1 then
    (m.1 * env.cosQ spin3 - m.2.1 * env.sinQ spin3,
     m.1 * env.sinQ spin3 + m.2.1 * env.cosQ spin3, m.2.2)
  else m

/-- Per-steady-particle target position (source lines 1013-1065): lotus
target lerped toward the galaxy target by `gT`; bloom scale/jitter and
idle drift applied to the intermediate under their guards; the result
lerped toward the (spin-transformed when `mT > 0.01`) magic target by
`mT`. -/
def targetPosition (env : FrameEnv) (i : ℕ) (isGalaxyMode : Bool)
    (gT mT bloomFactor timeNow phase amp : ℚ) (l g m : Q3) : Q3 :=
  let bloomScale := 1 + bloomFactor * 2
  let bloomSpread := bloomFactor * (5 / 2)
  let t0 : Q3 := (lerpQ l.1 g.1 gT, lerpQ l.2.1 g.2.1 gT, lerpQ l.2.2 g.2.2 gT)
  let t1 : Q3 :=
    if isGalaxyMode = false ∧ 5 / 100 < bloomFactor ∧ mT < 1 / 10 then
      let influence := 1 - gT
      let scale := 1 + (bloomScale - 1) * influence
      let spread := bloomSpread * influence
      (t0.1 * scale + (env.rand i 0 - 1 / 2) * spread * (1 / 2),
       t0.2.1 * scale + (env.rand i 1 - 1 / 2) * spread * (1 / 2),
       t0.2.2 * scale + (env.rand i 2 - 1 / 2) * spread * (1 / 2))
    else t0
  let t2 : Q3 :=
    if isGalaxyMode = false ∧ bloomFactor < 1 / 10 ∧ mT < 1 / 10 then
      let freq := 8 / 10000
      (t1.1 + env.sinQ (timeNow * freq + phase) * amp,
       t1.2.1 + env.cosQ (timeNow * freq + phase * (1 / 2)) * amp,
       t1.2.2 + env.sinQ (timeNow * freq * (12 / 10) + phase) * amp)
    else t1
  let fm : Q3 := if 1 / 100 < mT then magicSpun env timeNow m else m
  (lerpQ t2.1 fm.1 mT, lerpQ t2.2.1 fm.2.1 mT, lerpQ t2.2.2 fm.2.2 mT)

/-- Frame-constant inputs of the steady-particle pass: mode flags and
smoothed scalars, the hover world point, and the immutable shape
buffers/drift array (as per-particle triples). -/
structure FrameParams where
  isGalaxyMode : Bool
  gT : ℚ
  mT : ℚ
  bloomFactor : ℚ
  timeNow : ℚ
  mouse : Q3
  lotusPos : ℕ → Q3
  galaxyPos : ℕ → Q3
  magicPos : ℕ → Q3
  lotusCol : ℕ → Q3
  galaxyCol : ℕ → Q3
  magicCol : ℕ → Q3
  drift : ℕ → Q3

/-- One steady particle's update (source lines 1010-1141): new position
(damped spring toward the blended target, plus hover jitter) and new
color (lotus→galaxy→magic lerp chain with twinkle, magic glow and hover
brighten). -/
def integrateParticle (env : FrameEnv) (P : FrameParams) (i : ℕ) (p : Q3) :
    Q3 × Q3 :=
  let t := targetPosition env i P.isGalaxyMode P.gT P.mT P.bloomFactor P.timeNow
    (P.drift i).1 (P.drift i).2.1 (P.lotusPos i) (P.galaxyPos i) (P.magicPos i)
  let damping := 5 / 100 + P.mT * (1 / 10)
  let p1 : Q3 := (p.1 + (t.1 - p.1) * damping,
                  p.2.1 + (t.2.1 - p.2.1) * damping,
                  p.2.2 + (t.2.2 - p.2.2) * damping)
  let c0 := P.lotusCol i
  let cg := P.galaxyCol i
  let cm := P.magicCol i
  let c1 : Q3 := (lerpQ c0.1 cg.1 P.gT, lerpQ c0.2.1 cg.2.1 P.gT,
                  lerpQ c0.2.2 cg.2.2 P.gT)
  let c2 : Q3 :=
    if 1 / 2 < P.gT ∧ i % 7 = 0 then
      let speed := 3 / 1000 + ((i % 10 : ℕ) : ℚ) * (5 / 10000)
      let ph := (i : ℚ) * (1 / 10)
      let intensity := 8 / 10 + (5 / 10) * env.sinQ (P.timeNow * speed + ph)
      (c1.1 * intensity, c1.2.1 * intensity, c1.2.2 * intensity)
    else c1
  let c3 : Q3 := (lerpQ c2.1 cm.1 P.mT, lerpQ c2.2.1 cm.2.1 P.mT,
                  lerpQ c2.2.2 cm.2.2 P.mT)
  let c4 : Q3 :=
    if 1 / 100 < P.mT then
      let pulse := env.sinQ (P.timeNow * (3 / 1000)) * (2 / 10) + 2 / 10
      let shimmer := env.sinQ (P.timeNow * (1 / 100) + ((3 * i : ℕ) : ℚ)) * (1 / 10)
      let totalGlow := (pulse + shimmer) * P.mT
      (c3.1 + totalGlow, c3.2.1 + totalGlow * (8 / 10), c3.2.2 + totalGlow * (2 / 10))
    else c3
  let dx := p1.1 - P.mouse.1
  let dy := p1.2.1 - P.mouse.2.1
  let dz := p1.2.2 - P.mouse.2.2
  if dx * dx + dy * dy + dz * dz < 2 / 10 then
    ((p1.1 + (env.rand i 3 - 1 / 2) * (3 / 100),
      p1.2.1 + (env.rand i 4 - 1 / 2) * (3 / 100),
      p1.2.2 + (env.rand i 5 - 1 / 2) * (3 / 100)),
     (min 1 (c4.1 + 4 / 10), min 1 (c4.2.1 + 4 / 10), min 1 (c4.2.2 + 4 / 10)))
  else (p1, c4)

/-- The shared mutable particle buffers (positions and colors). -/
structure Buffers where
  pos : ℕ → Q3
  col : ℕ → Q3

def writeAt (f : ℕ → Q3) (i : ℕ) (v : Q3) : ℕ → Q3 :=
  fun j => if j = i then v else f j

/-- One iteration of the steady loop: `if (activeFireworkIndices.has(i))
continue;` else write particle `i`'s new position and color. -/
def steadyBody (env : FrameEnv) (P : FrameParams) (active : ℕ → Bool)
    (b : Buffers) (i : ℕ) : Buffers :=
  if active i then b
  else
    let r := integrateParticle env P i (b.pos i)
    ⟨writeAt b.pos i r.1, writeAt b.col i r.2⟩

/-- The full steady pass `for (let i = 0; i < PARTICLE_COUNT; i++)`. -/
def steadyPass (env : FrameEnv) (P : FrameParams) (active : ℕ → Bool)
    (b : Buffers) : Buffers :=
  (List.range PARTICLE_COUNT).foldl (steadyBody env P active) b

/-- The per-frame active set (source lines 926-939): every live
firework's spark head indices and trail indices, rebuilt before the
steady pass. -/
def activeFireworkIndices (fws : List FireworkR) (i : ℕ) : Bool :=
  fws.any fun fw => fw.sparks.any fun sp =>
    i == sp.headIdx || sp.trailIndices.contains i

lemma foldl_steadyBody_skip (env : FrameEnv) (P : FrameParams)
    (active : ℕ → Bool) (i : ℕ) (h : active i = true) :
    ∀ (idxs : List ℕ) (b : Buffers),
      (idxs.foldl (steadyBody env P active) b).pos i = b.pos i ∧
      (idxs.foldl (steadyBody env P active) b).col i = b.col i := by
  intro idxs
  induction idxs with
  | nil => intro b; exact ⟨rfl, rfl⟩
  | cons j t ih =>
    intro b
    rw [List.foldl_cons]
    obtain ⟨h1, h2⟩ := ih (steadyBody env P active b j)
    rw [h1, h2]
    unfold steadyBody
    by_cases hj : active j = true
    · rw [if_pos hj]; exact ⟨rfl, rfl⟩
    · rw [if_neg hj]
      have hij : ¬ i = j := fun he => hj (he ▸ h)
      constructor
      · show writeAt b.pos j _ i = b.pos i
        rw [writeAt, if_neg hij]
      · show writeAt b.col j _ i = b.col i
        rw [writeAt, if_neg hij]

/-! ## Claims C1 and C2 -/

/-- Claim C1: the steady-particle target is computed by successive
override in generator-priority order — the lotus target is lerped toward
the galaxy target by `gT` and that result is lerped toward the
(spin-transformed) magic target by `mT` (first conjunct, with galaxy mode
on so that the bloom/idle adjustments of the intermediate are disabled);
in particular, with `gT = 1` and `mT = 1` simultaneously the final target
equals the spin-transformed magic target exactly, not an average of the
shapes (second conjunct, for arbitrary mode flag and bloom factor). -/
theorem blend_priority_override :
    (∀ (env : FrameEnv) (i : ℕ) (gT mT bloomFactor timeNow phase amp : ℚ)
        (l g m : Q3),
      targetPosition env i true gT mT bloomFactor timeNow phase amp l g m =
        (lerpQ (lerpQ l.1 g.1 gT)
           (if 1 / 100 < mT then magicSpun env timeNow m else m).1 mT,
         lerpQ (lerpQ l.2.1 g.2.1 gT)
           (if 1 / 100 < mT then magicSpun env timeNow m else m).2.1 mT,
         lerpQ (lerpQ l.2.2 g.2.2 gT)
           (if 1 / 100 < mT then magicSpun env timeNow m else m).2.2 mT)) ∧
    (∀ (env : FrameEnv) (i : ℕ) (isGalaxyMode : Bool)
        (bloomFactor timeNow phase amp : ℚ) (l g m : Q3),
      targetPosition env i isGalaxyMode 1 1 bloomFactor timeNow phase amp l g m =
        magicSpun env timeNow m) := by
  constructor
  · intro env i gT mT bloomFactor timeNow phase amp l g m
    rw [targetPosition]
    rw [if_neg (by simp), if_neg (by simp)]
  · intro env i isGalaxyMode bloomFactor timeNow phase amp l g m
    rw [targetPosition]
    rw [if_neg (by intro hc; have := hc.2.2; norm_num at this),
      if_neg (by intro hc; have := hc.2.2; norm_num at this),
      if_pos (by norm_num)]
    show (lerpQ _ (magicSpun env timeNow m).1 1,
          lerpQ _ (magicSpun env timeNow m).2.1 1,
          lerpQ _ (magicSpun env timeNow m).2.2 1) = _
    simp only [lerpQ]
    refine Prod.ext ?_ (Prod.ext ?_ ?_) <;> simp

/-- Claim C2: the steady pass never writes an index in the rebuilt
active-firework set: for every index owned by a spark (head or trail) of
a listed firework, the position and color entries are exactly what they
were before the pass. -/
theorem steady_pass_skips_firework_indices (env : FrameEnv) (P : FrameParams)
    (fws : List FireworkR) (b : Buffers) (i : ℕ)
    (h : activeFireworkIndices fws i = true) :
    (steadyPass env P (activeFireworkIndices fws) b).pos i = b.pos i ∧
    (steadyPass env P (activeFireworkIndices fws) b).col i = b.col i := by
  simp only [steadyPass]
  exact foldl_steadyBody_skip env P (activeFireworkIndices fws) i h
    (List.range PARTICLE_COUNT) b

/-- Oracle environment with all randomness and trigonometry zeroed, for
concrete witnesses. -/
def constEnv : FrameEnv := ⟨fun _ => 0, fun _ => 0, fun _ _ => 0⟩

/-- All-zero frame parameters, for concrete witnesses. -/
def constParams : FrameParams :=
  ⟨false, 0, 0, 0, 0, (0, 0, 0), fun _ => (0, 0, 0), fun _ => (0, 0, 0),
   fun _ => (0, 0, 0), fun _ => (0, 0, 0), fun _ => (0, 0, 0),
   fun _ => (0, 0, 0), fun _ => (0, 0, 0)⟩

/-- All-zero shared buffers, for concrete witnesses. -/
def zeroBuffers : Buffers := ⟨fun _ => (0, 0, 0), fun _ => (0, 0, 0)⟩

/-- A one-spark firework owning head 150000 and trail 150001, 150002. -/
def witnessFireworks : List FireworkR :=
  [⟨0, 0, [⟨150000, [150001, 150002]⟩]⟩]

theorem steady_pass_skips_firework_indices_witness :
    (steadyPass constEnv constParams (activeFireworkIndices witnessFireworks)
        zeroBuffers).pos 150001 = zeroBuffers.pos 150001 ∧
    (steadyPass constEnv constParams (activeFireworkIndices witnessFireworks)
        zeroBuffers).col 150001 = zeroBuffers.col 150001 :=
  steady_pass_skips_firework_indices constEnv constParams witnessFireworks
    zeroBuffers 150001 (by decide)

/-! ## Per-spark firework frame update (source lines 935-988)

For each spark of a live firework (whose `age` has already been
incremented this frame): capture the head position; apply gravity to the
head velocity's y component and multiplicative drag to all components;
integrate the head; write the head color; shift the trail from the
newest index `len-1` down to `1`, each trail slot taking its
predecessor's start-of-frame position and a faded color; finally the
first trail slot takes the head's captured pre-integration position. -/

/-- `spark.trailIndices[t]` (source indexes only in bounds). -/
def trailIdx (sp : SparkR) (t : ℕ) : ℕ := sp.trailIndices.getD t 0

/-- The faded color factor written to trail slot `t`:
`lifeRatio * (1 - t/len) * 0.8` with `lifeRatio = max(0, 1 - age/90)`. -/
def trailIntensity (age t len : ℕ) : ℚ :=
  max 0 (1 - (age : ℚ) / 90) * (1 - (t : ℚ) / (len : ℚ)) * (8 / 10)

/-- The color triple written to trail slot `t`:
`fw.color * (lifeRatio * (1 - t/len) * 0.8)`. -/
def trailShade (sp : SparkR) (color : Q3) (lifeRatio : ℚ) (t : ℕ) : Q3 :=
  let tRatio := (t : ℚ) / (sp.trailIndices.length : ℚ)
  let intensity := lifeRatio * (1 - tRatio) * (8 / 10)
  (color.1 * intensity, color.2.1 * intensity, color.2.2 * intensity)

/-- The `for (let t = trailIndices.length - 1; t > 0; t--)` loop: the
argument counts the next slot to process, so `trailLoop … k` performs the
iterations `t = k, k-1, …, 1`. -/
def trailLoop (sp : SparkR) (color : Q3) (lifeRatio : ℚ) :
    ℕ → (ℕ → Q3) → (ℕ → Q3) → (ℕ → Q3) × (ℕ → Q3)
  | 0, pos, col => (pos, col)
  | t + 1, pos, col =>
    let currI := trailIdx sp (t + 1)
    let prevI := trailIdx sp t
    let pos' := writeAt pos currI (pos prevI)
    let col' := writeAt col currI (trailShade sp color lifeRatio (t + 1))
    trailLoop sp color lifeRatio t pos' col'

/-- One spark's whole frame update on the position, velocity (`drifts`)
and color buffers; `age` is the firework's already-incremented age. -/
def sparkUpdate (color : Q3) (age : ℕ) (sp : SparkR) (pos vel col : ℕ → Q3) :
    (ℕ → Q3) × (ℕ → Q3) × (ℕ → Q3) :=
  let gravity : ℚ := 4 / 1000
  let drag : ℚ := 96 / 100
  let h := sp.headIdx
  let prevH := pos h
  let v0 := vel h
  let v1 : Q3 := (v0.1 * drag, (v0.2.1 - gravity) * drag, v0.2.2 * drag)
  let vel' := writeAt vel h v1
  let pos1 := writeAt pos h (prevH.1 + v1.1, prevH.2.1 + v1.2.1, prevH.2.2 + v1.2.2)
  let lifeRatio := max 0 (1 - (age : ℚ) / 90)
  let col1 := writeAt col h color
  let pc := trailLoop sp color lifeRatio (sp.trailIndices.length - 1) pos1 col1
  match sp.trailIndices with
  | [] => (pc.1, vel', pc.2)
  | t0 :: _ =>
    (writeAt pc.1 t0 prevH, vel',
     writeAt pc.2 t0 (color.1 * lifeRatio * (9 / 10),
       color.2.1 * lifeRatio * (9 / 10), color.2.2 * lifeRatio * (9 / 10)))

lemma trailIdx_inj (sp : SparkR) (hnd : sp.trailIndices.Nodup) {a b : ℕ}
    (ha : a < sp.trailIndices.length) (hb : b < sp.trailIndices.length)
    (he : trailIdx sp a = trailIdx sp b) : a = b := by
  rw [trailIdx, trailIdx, List.getD_eq_getElem _ _ ha, List.getD_eq_getElem _ _ hb]
    at he
  exact hnd.getElem_inj_iff.mp he

lemma writeAt_same (f : ℕ → Q3) (i : ℕ) (v : Q3) : writeAt f i v i = v := by
  rw [writeAt, if_pos rfl]

lemma writeAt_other (f : ℕ → Q3) (i j : ℕ) (v : Q3) (h : ¬ j = i) :
    writeAt f i v j = f j := by
  rw [writeAt, if_neg h]

lemma trailLoop_spec (sp : SparkR) (color : Q3) (lifeRatio : ℚ)
    (hnd : sp.trailIndices.Nodup) :
    ∀ (k : ℕ), k < sp.trailIndices.length →
      ∀ (pos col : ℕ → Q3),
      (∀ t, 1 ≤ t → t ≤ k →
        (trailLoop sp color lifeRatio k pos col).1 (trailIdx sp t) =
            pos (trailIdx sp (t - 1)) ∧
        (trailLoop sp color lifeRatio k pos col).2 (trailIdx sp t) =
            trailShade sp color lifeRatio t) ∧
      (∀ j, (∀ t, 1 ≤ t → t ≤ k → j ≠ trailIdx sp t) →
        (trailLoop sp color lifeRatio k pos col).1 j = pos j ∧
        (trailLoop sp color lifeRatio k pos col).2 j = col j) := by
  intro k
  induction k with
  | zero =>
    intro _ pos col
    exact ⟨fun t ht1 ht0 => by omega, fun j _ => ⟨rfl, rfl⟩⟩
  | succ k ih =>
    intro hk pos col
    have hunf : trailLoop sp color lifeRatio (k + 1) pos col =
        trailLoop sp color lifeRatio k
          (writeAt pos (trailIdx sp (k + 1)) (pos (trailIdx sp k)))
          (writeAt col (trailIdx sp (k + 1))
            (trailShade sp color lifeRatio (k + 1))) := rfl
    obtain ⟨ih1, ih2⟩ := ih (by omega)
      (writeAt pos (trailIdx sp (k + 1)) (pos (trailIdx sp k)))
      (writeAt col (trailIdx sp (k + 1)) (trailShade sp color lifeRatio (k + 1)))
    have hne : ∀ a, a < k + 1 → ¬ trailIdx sp a = trailIdx sp (k + 1) := by
      intro a halt he
      have := trailIdx_inj sp hnd (by omega) hk he
      omega
    rw [hunf]
    constructor
    · intro t ht1 htk
      rcases Nat.lt_or_ge t (k + 1) with hlt | hge
      · obtain ⟨hp, hc⟩ := ih1 t ht1 (by omega)
        refine ⟨?_, hc⟩
        rw [hp]
        exact writeAt_other _ _ _ _ (hne (t - 1) (by omega))
      · have hteq : t = k + 1 := by omega
        subst hteq
        have hj : ∀ u, 1 ≤ u → u ≤ k → trailIdx sp (k + 1) ≠ trailIdx sp u := by
          intro u hu1 huk he
          exact hne u (by omega) he.symm
        obtain ⟨hp, hc⟩ := ih2 (trailIdx sp (k + 1)) hj
        refine ⟨?_, ?_⟩
        · rw [hp, writeAt_same]
          norm_num
        · rw [hc, writeAt_same]
    · intro j hj
      obtain ⟨hp, hc⟩ := ih2 j (fun t h1 h2 => hj t h1 (by omega))
      have hjk : ¬ j = trailIdx sp (k + 1) := hj (k + 1) (by omega) (le_refl _)
      exact ⟨by rw [hp, writeAt_other _ _ _ _ hjk],
             by rw [hc, writeAt_other _ _ _ _ hjk]⟩

lemma sparkUpdate_eq (color : Q3) (age : ℕ) (sp : SparkR)
    (pos vel col : ℕ → Q3) (h0 : 0 < sp.trailIndices.length) :
    sparkUpdate color age sp pos vel col =
      (writeAt (trailLoop sp color (max 0 (1 - (age : ℚ) / 90))
          (sp.trailIndices.length - 1)
          (writeAt pos sp.headIdx
            ((pos sp.headIdx).1 + (vel sp.headIdx).1 * (96 / 100),
             (pos sp.headIdx).2.1 + ((vel sp.headIdx).2.1 - 4 / 1000) * (96 / 100),
             (pos sp.headIdx).2.2 + (vel sp.headIdx).2.2 * (96 / 100)))
          (writeAt col sp.headIdx color)).1
        (trailIdx sp 0) (pos sp.headIdx),
       writeAt vel sp.headIdx
         ((vel sp.headIdx).1 * (96 / 100),
          ((vel sp.headIdx).2.1 - 4 / 1000) * (96 / 100),
          (vel sp.headIdx).2.2 * (96 / 100)),
       writeAt (trailLoop sp color (max 0 (1 - (age : ℚ) / 90))
          (sp.trailIndices.length - 1)
          (writeAt pos sp.headIdx
            ((pos sp.headIdx).1 + (vel sp.headIdx).1 * (96 / 100),
             (pos sp.headIdx).2.1 + ((vel sp.headIdx).2.1 - 4 / 1000) * (96 / 100),
             (pos sp.headIdx).2.2 + (vel sp.headIdx).2.2 * (96 / 100)))
          (writeAt col sp.headIdx color)).2
        (trailIdx sp 0)
        (color.1 * max 0 (1 - (age : ℚ) / 90) * (9 / 10),
         color.2.1 * max 0 (1 - (age : ℚ) / 90) * (9 / 10),
         color.2.2 * max 0 (1 - (age : ℚ) / 90) * (9 / 10))) := by
  rcases hl : sp.trailIndices with _ | ⟨t0, rest⟩
  · rw [hl] at h0
    simp at h0
  · simp only [sparkUpdate, hl, trailIdx, List.getD_cons_zero]

/-- Claim C6: each frame, for a spark with distinct indices (head not in
the trail, trail indices pairwise distinct), the head's velocity first
receives gravity on its y component and then multiplicative drag, and is
added to the head's position; the trail is a one-frame-delayed chain:
iterating from the newest trail index down to index 1, trail slot `t`
takes the position slot `t-1` held at the start of the frame, and trail
slot 0 takes the head's position captured before the head was
integrated; every shifted trail slot's color is the firework color scaled
by `trailIntensity`, which decreases (weakly) in both the trail position
and the firework age. -/
theorem spark_trail_propagation (color : Q3) (age : ℕ) (sp : SparkR)
    (pos vel col : ℕ → Q3)
    (hnd : sp.trailIndices.Nodup) (hhead : sp.headIdx ∉ sp.trailIndices) :
    (sparkUpdate color age sp pos vel col).2.1 sp.headIdx =
      ((vel sp.headIdx).1 * (96 / 100),
       ((vel sp.headIdx).2.1 - 4 / 1000) * (96 / 100),
       (vel sp.headIdx).2.2 * (96 / 100)) ∧
    (sparkUpdate color age sp pos vel col).1 sp.headIdx =
      ((pos sp.headIdx).1 + (vel sp.headIdx).1 * (96 / 100),
       (pos sp.headIdx).2.1 + ((vel sp.headIdx).2.1 - 4 / 1000) * (96 / 100),
       (pos sp.headIdx).2.2 + (vel sp.headIdx).2.2 * (96 / 100)) ∧
    (∀ t, 1 ≤ t → t < sp.trailIndices.length →
      (sparkUpdate color age sp pos vel col).1 (trailIdx sp t) =
        pos (trailIdx sp (t - 1))) ∧
    (0 < sp.trailIndices.length →
      (sparkUpdate color age sp pos vel col).1 (trailIdx sp 0) =
        pos sp.headIdx) ∧
    (∀ t, 1 ≤ t → t < sp.trailIndices.length →
      (sparkUpdate color age sp pos vel col).2.2 (trailIdx sp t) =
        (color.1 * trailIntensity age t sp.trailIndices.length,
         color.2.1 * trailIntensity age t sp.trailIndices.length,
         color.2.2 * trailIntensity age t sp.trailIndices.length)) ∧
    (∀ t u, t ≤ u →
      trailIntensity age u sp.trailIndices.length ≤
        trailIntensity age t sp.trailIndices.length) ∧
    (∀ a b t, a ≤ b → t ≤ sp.trailIndices.length →
      trailIntensity b t sp.trailIndices.length ≤
        trailIntensity a t sp.trailIndices.length) := by
  have hmemt : ∀ t, t < sp.trailIndices.length → trailIdx sp t ∈ sp.trailIndices := by
    intro t ht
    rw [trailIdx, List.getD_eq_getElem _ _ ht]
    exact List.getElem_mem ht
  have hht : ∀ t, t < sp.trailIndices.length → ¬ trailIdx sp t = sp.headIdx := by
    intro t ht he
    exact hhead (he ▸ hmemt t ht)
  rcases Nat.eq_zero_or_pos sp.trailIndices.length with hL | hL
  · -- empty trail: the trail conjuncts are vacuous
    have hl : sp.trailIndices = [] := List.length_eq_zero.mp hL
    have hR : sparkUpdate color age sp pos vel col =
        (writeAt pos sp.headIdx
          ((pos sp.headIdx).1 + (vel sp.headIdx).1 * (96 / 100),
           (pos sp.headIdx).2.1 + ((vel sp.headIdx).2.1 - 4 / 1000) * (96 / 100),
           (pos sp.headIdx).2.2 + (vel sp.headIdx).2.2 * (96 / 100)),
         writeAt vel sp.headIdx
           ((vel sp.headIdx).1 * (96 / 100),
            ((vel sp.headIdx).2.1 - 4 / 1000) * (96 / 100),
            (vel sp.headIdx).2.2 * (96 / 100)),
         writeAt col sp.headIdx color) := by
      simp only [sparkUpdate, hl, List.length_nil, Nat.zero_sub, trailLoop]
    rw [hR]
    refine ⟨writeAt_same _ _ _, writeAt_same _ _ _, ?_, ?_, ?_, ?_, ?_⟩
    · intro t ht1 ht2; omega
    · intro h0; omega
    · intro t ht1 ht2; omega
    · intro t u htu
      rw [hl]
      simp only [List.length_nil, Nat.cast_zero, div_zero, trailIntensity]
      exact le_rfl
    · intro a b t hab htL
      rw [hl] at htL ⊢
      simp only [List.length_nil, Nat.cast_zero, div_zero, trailIntensity,
        sub_zero, mul_one]
      have hd : (b : ℚ) / 90 ≥ (a : ℚ) / 90 := by
        apply div_le_div_of_nonneg_right ?_ (by norm_num)
        exact_mod_cast hab
      have hmx : max 0 (1 - (b : ℚ) / 90) ≤ max 0 (1 - (a : ℚ) / 90) :=
        max_le_max le_rfl (by linarith)
      nlinarith [le_max_left (0 : ℚ) (1 - (b : ℚ) / 90)]
  · have hkey := trailLoop_spec sp color (max 0 (1 - (age : ℚ) / 90)) hnd
      (sp.trailIndices.length - 1) (by omega)
      (writeAt pos sp.headIdx
        ((pos sp.headIdx).1 + (vel sp.headIdx).1 * (96 / 100),
         (pos sp.headIdx).2.1 + ((vel sp.headIdx).2.1 - 4 / 1000) * (96 / 100),
         (pos sp.headIdx).2.2 + (vel sp.headIdx).2.2 * (96 / 100)))
      (writeAt col sp.headIdx color)
    obtain ⟨hS1, hS2⟩ := hkey
    rw [sparkUpdate_eq color age sp pos vel col hL]
    dsimp only
    have h0t : ∀ t, 1 ≤ t → t < sp.trailIndices.length →
        ¬ trailIdx sp t = trailIdx sp 0 := by
      intro t ht1 ht2 he
      have := trailIdx_inj sp hnd ht2 (by omega) he
      omega
    refine ⟨?_, ?_, ?_, ?_, ?_, ?_, ?_⟩
    · exact writeAt_same _ _ _
    · -- head position: untouched by trail writes
      have hh0 : ¬ sp.headIdx = trailIdx sp 0 := fun he => hht 0 (by omega) he.symm
      rw [writeAt_other _ _ _ _ hh0]
      obtain ⟨hp, _⟩ := hS2 sp.headIdx
        (fun t ht1 htk => fun he => hht t (by omega) he.symm)
      rw [hp, writeAt_same]
    · intro t ht1 ht2
      rw [writeAt_other _ _ _ _ (h0t t ht1 ht2)]
      obtain ⟨hp, _⟩ := hS1 t ht1 (by omega)
      rw [hp]
      have hprev : ¬ trailIdx sp (t - 1) = sp.headIdx := hht (t - 1) (by omega)
      rw [writeAt_other _ _ _ _ hprev]
    · intro h0
      rw [writeAt_same]
    · intro t ht1 ht2
      rw [writeAt_other _ _ _ _ (h0t t ht1 ht2)]
      obtain ⟨_, hc⟩ := hS1 t ht1 (by omega)
      rw [hc, trailShade, trailIntensity]
    · intro t u htu
      rw [trailIntensity, trailIntensity]
      have hlr : (0 : ℚ) ≤ max 0 (1 - (age : ℚ) / 90) := le_max_left _ _
      have hdiv : (t : ℚ) / (sp.trailIndices.length : ℚ) ≤
          (u : ℚ) / (sp.trailIndices.length : ℚ) := by
        apply div_le_div_of_nonneg_right ?_ ?_
        · exact_mod_cast htu
        · positivity
      have hsub : 1 - (u : ℚ) / (sp.trailIndices.length : ℚ) ≤
          1 - (t : ℚ) / (sp.trailIndices.length : ℚ) := by linarith
      have := mul_le_mul_of_nonneg_left hsub hlr
      nlinarith
    · intro a b t hab htL
      rw [trailIntensity, trailIntensity]
      have hd : (a : ℚ) / 90 ≤ (b : ℚ) / 90 := by
        apply div_le_div_of_nonneg_right ?_ (by norm_num)
        exact_mod_cast hab
      have hmx : max 0 (1 - (b : ℚ) / 90) ≤ max 0 (1 - (a : ℚ) / 90) :=
        max_le_max le_rfl (by linarith)
      have hfac : (0 : ℚ) ≤ 1 - (t : ℚ) / (sp.trailIndices.length : ℚ) := by
        have : (t : ℚ) / (sp.trailIndices.length : ℚ) ≤ 1 := by
          apply div_le_one_of_le₀
          · exact_mod_cast htL
          · positivity
        linarith
      have hb0 : (0 : ℚ) ≤ max 0 (1 - (b : ℚ) / 90) := le_max_left _ _
      nlinarith

/-- A concrete spark (head 13, trail 1,2,3) for the C6 witness. -/
def witnessSpark : SparkR := ⟨13, [1, 2, 3]⟩

/-- Concrete start-of-frame positions for the C6 witness. -/
def witnessPos : ℕ → Q3 := fun j => ((j : ℚ), 0, 0)

theorem spark_trail_propagation_witness :
    (sparkUpdate (1, 1, 1) 1 witnessSpark witnessPos (fun _ => (0, 0, 0))
        (fun _ => (0, 0, 0))).1 (trailIdx witnessSpark 1) =
      witnessPos (trailIdx witnessSpark 0) :=
  (spark_trail_propagation (1, 1, 1) 1 witnessSpark witnessPos
    (fun _ => (0, 0, 0)) (fun _ => (0, 0, 0)) (by decide) (by decide)).2.2.1
    1 (by omega) (by decide)

/-! ## Pointer raycast onto the fixed Z=0 plane
(source lines 105-108, 245-258, 906-911)

The source raycasts with three.js: `ray.intersectPlane(plane, target)`
returns `null` — leaving `target` untouched — when
`distanceToPlane` is `null`, which happens when the ray is parallel to
the plane and the origin is off the plane, or when the intersection lies
behind the origin; the division by the denominator is performed only
under the `denominator ≠ 0` guard.  `mouseWorldUpdate` is the hover
update of `animate` (the held world point keeps its previous value on a
miss); `clickSpawnPos` is `handleClick`, whose freshly constructed
`target` vector stays at the default `(0,0,0)` on a miss (the
`if (target)` check is always truthy for a `Vector3`). -/

structure RayQ where
  origin : Q3
  dir : Q3

structure PlaneQ where
  normal : Q3
  constant : ℚ

def dot3 (a b : Q3) : ℚ := a.1 * b.1 + a.2.1 * b.2.1 + a.2.2 * b.2.2

/-- three.js `Ray.distanceToPlane`. -/
def distanceToPlane (r : RayQ) (p : PlaneQ) : Option ℚ :=
  if dot3 p.normal r.dir = 0 then
    if dot3 p.normal r.origin + p.constant = 0 then some 0 else none
  else
    let t := -(dot3 r.origin p.normal + p.constant) / dot3 p.normal r.dir
    if 0 ≤ t then some t else none

/-- three.js `Ray.intersectPlane` (the `target` write happens only when a
parameter `t` exists). -/
def intersectPlane (r : RayQ) (p : PlaneQ) : Option Q3 :=
  match distanceToPlane r p with
  | none => none
  | some t => some (r.origin.1 + r.dir.1 * t, r.origin.2.1 + r.dir.2.1 * t,
      r.origin.2.2 + r.dir.2.2 * t)

/-- The per-frame hover update of `mouseWorldPosRef` (source line 910). -/
def mouseWorldUpdate (prev : Q3) (r : RayQ) (p : PlaneQ) : Q3 :=
  match intersectPlane r p with
  | none => prev
  | some v => v

/-- The world point `handleClick` passes to `spawnFirework` (source lines
245-258): a fresh `Vector3` written by `intersectPlane`, left at the
default origin when there is no intersection. -/
def clickSpawnPos (r : RayQ) (p : PlaneQ) : Q3 :=
  match intersectPlane r p with
  | none => (0, 0, 0)
  | some v => v

/-- Claim C10: when the pointer ray is parallel to the intersection plane
and misses it (no intersection exists), the hover world point is left
exactly at its previously held value, and the world position passed to
`spawnFirework` on a click is the default origin `(0,0,0)` — in the
model every produced coordinate is a well-defined rational (the division
is guarded by `denominator ≠ 0`), so no NaN/undefined coordinate is ever
produced. -/
theorem raycast_degenerate_holds_point (prev : Q3) (r : RayQ) (p : PlaneQ)
    (hpar : dot3 p.normal r.dir = 0)
    (hoff : dot3 p.normal r.origin + p.constant ≠ 0) :
    mouseWorldUpdate prev r p = prev ∧ clickSpawnPos r p = (0, 0, 0) := by
  have hd : distanceToPlane r p = none := by
    rw [distanceToPlane, if_pos hpar, if_neg hoff]
  constructor <;> simp [mouseWorldUpdate, clickSpawnPos, intersectPlane, hd]

/-- A ray parallel to the source's Z=0 plane, one unit in front of it. -/
def degenerateRay : RayQ := ⟨(0, 0, 1), (1, 0, 0)⟩

/-- The source's fixed plane `new THREE.Plane(new THREE.Vector3(0,0,1), 0)`. -/
def zPlane : PlaneQ := ⟨(0, 0, 1), 0⟩

theorem raycast_degenerate_holds_point_witness :
    mouseWorldUpdate (5, 5, 5) degenerateRay zPlane = (5, 5, 5) ∧
    clickSpawnPos degenerateRay zPlane = (0, 0, 0) :=
  raycast_degenerate_holds_point (5, 5, 5) degenerateRay zPlane
    (by norm_num [dot3, degenerateRay, zPlane])
    (by norm_num [dot3, degenerateRay, zPlane])

end Flower
